import Mathlib

/-!
Verification of the Smooth Ratio Exploration Engine.

Shallow embedding of the numeric core of the repository
(`src/index.js` and the two unnamed variants `src/unnamed/part_000`,
`src/unnamed/part_001`) together with proofs and refutations of the
specification's claims.

The engine explores `R(n) = (2^k · 3^l) / (n ln n)` where
`n(n+1) = 2^k · 3^l · m` with `gcd(m, 6) = 1`.  Integer arithmetic in the
source is JavaScript `BigInt` (exact, arbitrary precision), embedded here as
`Nat`.  The floating-point logarithm stage is idealised over `ℝ`
(`Math.log ↦ Real.log`, `Math.log10 ↦ Real.logb 10`, `Math.exp ↦ Real.exp`);
every claim settled through that stage concerns the algebraic shape of the
computation, which the idealisation preserves.
-/

namespace SmoothRatio

/-- Result record of the 2/3-power extraction, mirroring the object literal
`{ pow2, pow3, remainder }` returned by `extract23Powers` (`src/index.js`
lines 14–33) and `extract23PowersBigInt` (`src/unnamed/part_000` lines 7–13,
`src/unnamed/part_001` lines 5–21, where `part_000` names the fields
`k`/`l`/`remainder`). -/
structure Extract23 where
  pow2 : ℕ
  pow3 : ℕ
  remainder : ℕ
deriving DecidableEq, Repr

/-- The helper `stripFuel p fuel num` embeds the source loop
`while (num % p === 0n) { count++; num = num / p; }` (with `p = 2n` or `3n`),
returning the pair (number of divisions performed, final value of `num`).
In the source the loop terminates because each iteration strictly decreases
the positive `num`; consequently `num` itself bounds the iteration count, and
is used below as structural fuel so that concrete runs compute by `decide`.
The guard is exactly the source's `num % p === 0n`. -/
def stripFuel (p : ℕ) : ℕ → ℕ → ℕ × ℕ
  | 0, num => (0, num)
  | fuel + 1, num =>
    if num % p = 0 then
      ((stripFuel p fuel (num / p)).1 + 1, (stripFuel p fuel (num / p)).2)
    else
      (0, num)

/-- The division-counting loop run to completion: fuel `num` is enough for
every positive `num` (see `stripFuel`). -/
def divCount (p num : ℕ) : ℕ × ℕ := stripFuel p num num

/-- Function `extract23Powers` (`src/index.js` lines 14–33): forms the exact product
`n(n+1)`, strips all factors of 2, then all factors of 3. -/
def extract23Powers (n : ℕ) : Extract23 :=
  ⟨(divCount 2 (n * (n + 1))).1,
   (divCount 3 (divCount 2 (n * (n + 1))).2).1,
   (divCount 3 (divCount 2 (n * (n + 1))).2).2⟩

/-- Function `extract23PowersBigInt` (`src/unnamed/part_000` lines 7–13 and
`src/unnamed/part_001` lines 5–21): the same stripping loops applied to an
argument that is already the number to factor (its callers pass the
precomputed product `n·(n+1)`). -/
def extract23PowersBigInt (num : ℕ) : Extract23 :=
  ⟨(divCount 2 num).1,
   (divCount 3 (divCount 2 num).2).1,
   (divCount 3 (divCount 2 num).2).2⟩

/-! ### Correctness of the stripping loop -/

lemma stripFuel_spec {p : ℕ} (hp : 2 ≤ p) :
    ∀ fuel num, 0 < num → num ≤ fuel →
      p ^ (stripFuel p fuel num).1 * (stripFuel p fuel num).2 = num ∧
      ¬ p ∣ (stripFuel p fuel num).2 ∧ 0 < (stripFuel p fuel num).2 := by
  intro fuel
  induction fuel with
  | zero => intro num h0 hle; omega
  | succ f ih =>
    intro num h0 hle
    by_cases hdiv : num % p = 0
    · have hdvd : p ∣ num := Nat.dvd_of_mod_eq_zero hdiv
      have hq0 : 0 < num / p := Nat.div_pos (Nat.le_of_dvd h0 hdvd) (by omega)
      have hlt : num / p < num := Nat.div_lt_self h0 (by omega)
      obtain ⟨h1, h2, h3⟩ := ih (num / p) hq0 (by omega)
      simp only [stripFuel]
      rw [if_pos hdiv]
      refine ⟨?_, h2, h3⟩
      calc p ^ ((stripFuel p f (num / p)).1 + 1) * (stripFuel p f (num / p)).2
          = p * (p ^ (stripFuel p f (num / p)).1 * (stripFuel p f (num / p)).2) := by ring
        _ = p * (num / p) := by rw [h1]
        _ = num := Nat.mul_div_cancel' hdvd
    · simp only [stripFuel]
      rw [if_neg hdiv]
      refine ⟨by ring, ?_, h0⟩
      intro hc
      obtain ⟨k, hk⟩ := hc
      simp only at hk
      exact hdiv (by rw [hk, Nat.mul_mod_right])

lemma stripFuel_count_pos {p fuel num : ℕ} (hfuel : 0 < fuel) (hdiv : num % p = 0) :
    1 ≤ (stripFuel p fuel num).1 := by
  cases fuel with
  | zero => omega
  | succ f =>
    simp only [stripFuel]
    rw [if_pos hdiv]
    omega

lemma divCount_spec {p num : ℕ} (hp : 2 ≤ p) (h0 : 0 < num) :
    p ^ (divCount p num).1 * (divCount p num).2 = num ∧
    ¬ p ∣ (divCount p num).2 ∧ 0 < (divCount p num).2 :=
  stripFuel_spec hp num num h0 le_rfl

lemma divCount_count_pos {p num : ℕ} (h0 : 0 < num) (hdiv : num % p = 0) :
    1 ≤ (divCount p num).1 :=
  stripFuel_count_pos h0 hdiv

/-- C1: for every integer `n ≥ 2` the factorizer returns `(pow2, pow3, remainder)`
with `2^pow2 * 3^pow3 * remainder = n*(n+1)` exactly, the remainder divisible by
neither 2 nor 3, and `pow2 ≥ 1`; in particular `extract23Powers 8 = ⟨3, 2, 1⟩`
(since `8·9 = 72 = 2³·3²`). -/
theorem C1_extract23Powers_correct (n : ℕ) (h : 2 ≤ n) :
    2 ^ (extract23Powers n).pow2 * 3 ^ (extract23Powers n).pow3 * (extract23Powers n).remainder
        = n * (n + 1)
    ∧ (extract23Powers n).remainder % 2 ≠ 0
    ∧ (extract23Powers n).remainder % 3 ≠ 0
    ∧ 1 ≤ (extract23Powers n).pow2
    ∧ extract23Powers 8 = ⟨3, 2, 1⟩ := by
  have hprod : 0 < n * (n + 1) := Nat.mul_pos (by omega) (by omega)
  obtain ⟨e2, d2, p2pos⟩ := @divCount_spec 2 (n * (n + 1)) (by omega) hprod
  obtain ⟨e3, d3, p3pos⟩ :=
    @divCount_spec 3 (divCount 2 (n * (n + 1))).2 (by omega) p2pos
  have heven : (n * (n + 1)) % 2 = 0 := by
    obtain ⟨r, hr⟩ := Nat.even_mul_succ_self n
    omega
  refine ⟨?_, ?_, ?_, divCount_count_pos hprod heven, by decide⟩
  · show 2 ^ (divCount 2 (n * (n + 1))).1 *
        3 ^ (divCount 3 (divCount 2 (n * (n + 1))).2).1 *
        (divCount 3 (divCount 2 (n * (n + 1))).2).2 = n * (n + 1)
    rw [mul_assoc, e3, e2]
  · intro hc
    have hmdvd : (divCount 3 (divCount 2 (n * (n + 1))).2).2 ∣ (divCount 2 (n * (n + 1))).2 :=
      Dvd.intro_left _ e3
    exact d2 (dvd_trans (Nat.dvd_of_mod_eq_zero hc) hmdvd)
  · intro hc
    exact d3 (Nat.dvd_of_mod_eq_zero hc)

/-- Witness for `C1_extract23Powers_correct` at `n = 8`. -/
theorem C1_extract23Powers_correct_witness :
    2 ≤ 8 ∧
    (2 ^ (extract23Powers 8).pow2 * 3 ^ (extract23Powers 8).pow3 * (extract23Powers 8).remainder
        = 8 * (8 + 1)
    ∧ (extract23Powers 8).remainder % 2 ≠ 0
    ∧ (extract23Powers 8).remainder % 3 ≠ 0
    ∧ 1 ≤ (extract23Powers 8).pow2
    ∧ extract23Powers 8 = ⟨3, 2, 1⟩) :=
  ⟨by decide, C1_extract23Powers_correct 8 (by decide)⟩

/-- C10: the two factorization variants agree — `extract23Powers n`
(which forms the product `n(n+1)` internally) equals
`extract23PowersBigInt` applied to the precomputed product `n·(n+1)`.
Both definitions unfold to the same stripping computation. -/
theorem C10_extract_variants_agree (n : ℕ) (h : 2 ≤ n) :
    extract23Powers n = extract23PowersBigInt (n * (n + 1)) := rfl

/-- Witness for `C10_extract_variants_agree` at `n = 8`. -/
theorem C10_extract_variants_agree_witness :
    2 ≤ 8 ∧ extract23Powers 8 = extract23PowersBigInt (8 * (8 + 1)) :=
  ⟨by decide, C10_extract_variants_agree 8 (by decide)⟩

/-! ### Candidate generation (`src/index.js` lines 56–135) -/

/-- The sampling density option; the spec recognises exactly the three
settings `"low" | "medium" | "high"` (the configuration `<select>` offers
only these). -/
inductive Density where
  | low
  | medium
  | high
deriving DecidableEq, Repr

/-- The table `const densityMap = { low: 50, medium: 200, high: 500 }` with
`radius = densityMap[density] || 200` (`src/index.js` lines 97–98); on the
three recognised settings the `|| 200` fallback never fires. -/
def densityRadius : Density → ℕ
  | .low => 50
  | .medium => 200
  | .high => 500

/-- The step `const step = density === 'high' ? 1000 : density === 'medium' ? 10000 : 100000`
(`src/index.js` line 120). -/
def densityStep : Density → ℕ
  | .high => 1000
  | .medium => 10000
  | .low => 100000

/-- The `tryAdd` helper (`src/index.js` lines 61–67): add `n` to the
candidate set iff `2 ≤ n ≤ maxN` and it is not already present.  The JS
`Set` keeps insertion order, embedded here as appending to a list. -/
def tryAdd (maxN : ℕ) (s : List ℕ) (n : ℕ) : List ℕ :=
  if 2 ≤ n ∧ n ≤ maxN ∧ n ∉ s then s ++ [n] else s

/-- Strategy 1 (`src/index.js` lines 69–74): `n + 1 = 2^k` for `k = 2..200`,
breaking as soon as `2^k > maxN` (embedded as `takeWhile`, equivalent since
`2^k` is increasing in `k`). -/
def strategy1 (maxN : ℕ) : List ℕ :=
  ((List.range' 2 199).takeWhile (fun k => 2 ^ k ≤ maxN)).map (fun k => 2 ^ k - 1)

/-- Strategy 2 (`src/index.js` lines 76–81): `n + 1 = 3^k` for `k = 2..130`. -/
def strategy2 (maxN : ℕ) : List ℕ :=
  ((List.range' 2 129).takeWhile (fun k => 3 ^ k ≤ maxN)).map (fun k => 3 ^ k - 1)

/-- Strategy 3 (`src/index.js` lines 83–94): `2^a·3^b ∓ 1` for `a = 1..100`,
`b = 1..80`, with the source's two nested monotone `break`s as `takeWhile`s. -/
def strategy3 (maxN : ℕ) : List ℕ :=
  ((List.range' 1 100).takeWhile (fun a => 2 ^ a ≤ maxN)).flatMap (fun a =>
    ((List.range' 1 80).takeWhile (fun b => 2 ^ a * 3 ^ b ≤ maxN)).flatMap (fun b =>
      [2 ^ a * 3 ^ b - 1, 2 ^ a * 3 ^ b + 1]))

/-- Strategy 4 (`src/index.js` lines 96–107): every integer within `radius`
of each power `2^k`, `k = 10..200`, until `2^k > maxN`.  Offsets
`-radius..radius` are written `2^k - radius + j`, `j = 0..2·radius`; this is
exact in `ℕ` because `2^10 = 1024` exceeds every radius. -/
def strategy4 (maxN radius : ℕ) : List ℕ :=
  ((List.range' 10 191).takeWhile (fun k => 2 ^ k ≤ maxN)).flatMap (fun k =>
    (List.range (2 * radius + 1)).map (fun j => 2 ^ k - radius + j))

/-- Strategy 5 (`src/index.js` lines 109–117): the same around `3^k`,
`k = 6..130` (`3^6 = 729` exceeds every radius). -/
def strategy5 (maxN radius : ℕ) : List ℕ :=
  ((List.range' 6 125).takeWhile (fun k => 3 ^ k ≤ maxN)).flatMap (fun k =>
    (List.range (2 * radius + 1)).map (fun j => 3 ^ k - radius + j))

/-- Strategy 6 (`src/index.js` lines 119–123):
`for (let n = 2; n <= maxN; n += step)`, i.e. `2, 2+step, …` while `≤ maxN`.
For `maxN < 2` the formula below still lists the value `2`, which `tryAdd`
then rejects exactly as the source loop never runs — the resulting set is
identical. -/
def strategy6 (maxN step : ℕ) : List ℕ :=
  (List.range ((maxN - 2) / step + 1)).map (fun i => 2 + step * i)

/-- All candidate values in the order the source offers them to `tryAdd`. -/
def rawCandidates (maxN : ℕ) (d : Density) : List ℕ :=
  strategy1 maxN ++ strategy2 maxN ++ strategy3 maxN ++
    strategy4 maxN (densityRadius d) ++ strategy5 maxN (densityRadius d) ++
    strategy6 maxN (densityStep d)

/-- The candidate `Set` after all insertions (insertion order). -/
def candidateList (maxN : ℕ) (d : Density) : List ℕ :=
  (rawCandidates maxN d).foldl (tryAdd maxN) []

/-- Function `generateCandidates` (`src/index.js` lines 56–135): the deduplicated
candidate set sorted ascending (the source's comparator
`a < b ? -1 : a > b ? 1 : 0` is the usual numeric order) and then yielded in
that order.  `Array.sort` is embedded as insertion sort; on a duplicate-free
set every comparison sort produces this same list. -/
def generateCandidates (maxN : ℕ) (d : Density) : List ℕ :=
  (candidateList maxN d).insertionSort (· ≤ ·)

/-! ### Invariants of the candidate set -/

lemma mem_tryAdd {maxN : ℕ} {s : List ℕ} {n x : ℕ} (hx : x ∈ tryAdd maxN s n) :
    x ∈ s ∨ (x = n ∧ 2 ≤ n ∧ n ≤ maxN) := by
  unfold tryAdd at hx
  split at hx
  · rename_i hcond
    rcases List.mem_append.1 hx with h | h
    · exact Or.inl h
    · simp only [List.mem_singleton] at h
      exact Or.inr ⟨h, hcond.1, hcond.2.1⟩
  · exact Or.inl hx

lemma tryAdd_mem_mono {maxN : ℕ} {s : List ℕ} {n x : ℕ} (hx : x ∈ s) :
    x ∈ tryAdd maxN s n := by
  unfold tryAdd
  split
  · exact List.mem_append.2 (Or.inl hx)
  · exact hx

lemma mem_tryAdd_self {maxN : ℕ} {s : List ℕ} {n : ℕ} (h2 : 2 ≤ n) (hle : n ≤ maxN) :
    n ∈ tryAdd maxN s n := by
  unfold tryAdd
  split
  · exact List.mem_append.2 (Or.inr (List.mem_singleton.2 rfl))
  · rename_i hcond
    push_neg at hcond
    exact hcond h2 hle

lemma tryAdd_nodup {maxN : ℕ} {s : List ℕ} {n : ℕ} (hs : s.Nodup) :
    (tryAdd maxN s n).Nodup := by
  unfold tryAdd
  split
  · rename_i hcond
    exact List.Nodup.append hs (List.nodup_singleton n)
      (List.disjoint_singleton.2 hcond.2.2)
  · exact hs

lemma mem_foldl_tryAdd {maxN : ℕ} :
    ∀ (l s : List ℕ) (x : ℕ), x ∈ l.foldl (tryAdd maxN) s →
      x ∈ s ∨ (2 ≤ x ∧ x ≤ maxN) := by
  intro l
  induction l with
  | nil => intro s x hx; exact Or.inl hx
  | cons a l ih =>
    intro s x hx
    rcases ih (tryAdd maxN s a) x hx with h | h
    · rcases mem_tryAdd h with h' | h'
      · exact Or.inl h'
      · exact Or.inr ⟨h'.1 ▸ h'.2.1, h'.1 ▸ h'.2.2⟩
    · exact Or.inr h

lemma foldl_tryAdd_nodup {maxN : ℕ} :
    ∀ (l s : List ℕ), s.Nodup → (l.foldl (tryAdd maxN) s).Nodup := by
  intro l
  induction l with
  | nil => intro s hs; exact hs
  | cons a l ih => intro s hs; exact ih _ (tryAdd_nodup hs)

lemma foldl_tryAdd_mem_mono {maxN : ℕ} :
    ∀ (l s : List ℕ) (x : ℕ), x ∈ s → x ∈ l.foldl (tryAdd maxN) s := by
  intro l
  induction l with
  | nil => intro s x hx; exact hx
  | cons a l ih => intro s x hx; exact ih _ _ (tryAdd_mem_mono hx)

lemma mem_foldl_tryAdd_of_mem {maxN : ℕ} :
    ∀ (l s : List ℕ) (x : ℕ), x ∈ l → 2 ≤ x → x ≤ maxN →
      x ∈ l.foldl (tryAdd maxN) s := by
  intro l
  induction l with
  | nil => intro s x hx; cases hx
  | cons a l ih =>
    intro s x hx h2 hle
    rcases List.mem_cons.1 hx with h | h
    · subst h
      exact foldl_tryAdd_mem_mono l (tryAdd maxN s x) x (mem_tryAdd_self h2 hle)
    · exact ih _ _ h h2 hle

lemma candidateList_bound {maxN : ℕ} {d : Density} {x : ℕ}
    (hx : x ∈ candidateList maxN d) : 2 ≤ x ∧ x ≤ maxN := by
  rcases mem_foldl_tryAdd _ _ _ hx with h | h
  · cases h
  · exact h

lemma candidateList_nodup (maxN : ℕ) (d : Density) : (candidateList maxN d).Nodup :=
  foldl_tryAdd_nodup _ _ List.nodup_nil

lemma generateCandidates_perm (maxN : ℕ) (d : Density) :
    List.Perm (generateCandidates maxN d) (candidateList maxN d) :=
  List.perm_insertionSort _ _

lemma mem_generateCandidates {maxN : ℕ} {d : Density} {x : ℕ} :
    x ∈ generateCandidates maxN d ↔ x ∈ candidateList maxN d :=
  (generateCandidates_perm maxN d).mem_iff

lemma generateCandidates_bound {maxN : ℕ} {d : Density} {x : ℕ}
    (hx : x ∈ generateCandidates maxN d) : 2 ≤ x ∧ x ≤ maxN :=
  candidateList_bound (mem_generateCandidates.1 hx)

lemma generateCandidates_nodup (maxN : ℕ) (d : Density) :
    (generateCandidates maxN d).Nodup :=
  (generateCandidates_perm maxN d).nodup_iff.2 (candidateList_nodup maxN d)

lemma generateCandidates_sorted_le (maxN : ℕ) (d : Density) :
    List.Sorted (· ≤ ·) (generateCandidates maxN d) :=
  List.sorted_insertionSort _ _

lemma generateCandidates_sorted_lt (maxN : ℕ) (d : Density) :
    List.Sorted (· < ·) (generateCandidates maxN d) := by
  have hle := generateCandidates_sorted_le maxN d
  have hnd := generateCandidates_nodup maxN d
  exact (List.Pairwise.and hle hnd).imp (fun h => lt_of_le_of_ne h.1 h.2)

/-- The sparse linear sample always contributes the value `2`
(first iteration of `for (let n = 2; n <= maxN; n += step)`). -/
lemma two_mem_rawCandidates (maxN : ℕ) (d : Density) :
    2 ∈ rawCandidates maxN d := by
  have h6 : 2 ∈ strategy6 maxN (densityStep d) := by
    unfold strategy6
    refine List.mem_map.2 ⟨0, ?_, by ring⟩
    exact List.mem_range.2 (Nat.succ_pos _)
  unfold rawCandidates
  simp only [List.mem_append]
  tauto

lemma two_mem_generateCandidates {maxN : ℕ} (d : Density) (h : 2 ≤ maxN) :
    2 ∈ generateCandidates maxN d :=
  mem_generateCandidates.2
    (mem_foldl_tryAdd_of_mem _ _ _ (two_mem_rawCandidates maxN d) le_rfl h)

/-- C3: for every `maxN ≥ 2` and every density setting, every element of the
generator's output lies in `[2, maxN]`, the output has no duplicates, and it
is sorted in (strictly) ascending order. -/
theorem C3_generateCandidates_bounded_sorted (maxN : ℕ) (d : Density) (h : 2 ≤ maxN) :
    (∀ x ∈ generateCandidates maxN d, 2 ≤ x ∧ x ≤ maxN)
    ∧ (generateCandidates maxN d).Nodup
    ∧ List.Sorted (· < ·) (generateCandidates maxN d) :=
  ⟨fun _ hx => generateCandidates_bound hx,
   generateCandidates_nodup maxN d,
   generateCandidates_sorted_lt maxN d⟩

/-- Witness for `C3_generateCandidates_bounded_sorted` at `maxN = 10`,
`density = low`. -/
theorem C3_generateCandidates_bounded_sorted_witness :
    2 ≤ 10 ∧
    ((∀ x ∈ generateCandidates 10 Density.low, 2 ≤ x ∧ x ≤ 10)
     ∧ (generateCandidates 10 Density.low).Nodup
     ∧ List.Sorted (· < ·) (generateCandidates 10 Density.low)) :=
  ⟨by decide, C3_generateCandidates_bounded_sorted 10 Density.low (by decide)⟩

/-- C8: the candidate generator is deterministic — two invocations with
identical `(maxN, density)` arguments yield identical sequences.  The
embedding is a pure function of its arguments (the source generator reads no
external state and uses no randomness), so equal inputs give equal outputs. -/
theorem C8_generateCandidates_deterministic (m₁ m₂ : ℕ) (d₁ d₂ : Density)
    (hm : m₁ = m₂) (hd : d₁ = d₂) :
    generateCandidates m₁ d₁ = generateCandidates m₂ d₂ := by
  rw [hm, hd]

/-- Witness for `C8_generateCandidates_deterministic` at `(10, low)`. -/
theorem C8_generateCandidates_deterministic_witness :
    (10 : ℕ) = 10 ∧ Density.low = Density.low ∧
    generateCandidates 10 Density.low = generateCandidates 10 Density.low :=
  ⟨rfl, rfl, C8_generateCandidates_deterministic 10 10 Density.low Density.low rfl rfl⟩

/-! ### The logarithm stage

`src/index.js` lines 36–53 (`computeLogRatio`) and `src/unnamed/part_001`
lines 23–44 (`computeRatioBigInt`).  `Math.log`, `Math.log10` and `Math.exp`
are idealised as `Real.log`, `Real.logb 10` and `Real.exp`. -/

/-- The result object of `computeLogRatio` (`src/index.js` lines 44–52),
generic in the numeric type carrying the log-space values so that the
spike-tracking reduction below can be stated over any linear order. -/
structure RatioRecord (R : Type) where
  n : ℕ
  pow2 : ℕ
  pow3 : ℕ
  remainder : ℕ
  logRn : R
  ratio : R

/-- Constant `const LOG2 = Math.log(2)` (`src/index.js` line 10). -/
noncomputable def LOG2 : ℝ := Real.log 2

/-- Constant `const LOG3 = Math.log(3)` (`src/index.js` line 11). -/
noncomputable def LOG3 : ℝ := Real.log 3

/-- Function `computeLogRatio` (`src/index.js` lines 36–53): factor `n(n+1)` exactly,
then compute `logRn = pow2·LOG2 + pow3·LOG3 − log n − log(log n)` in
log-space and `ratio = exp(logRn)`. -/
noncomputable def computeLogRatio (n : ℕ) : RatioRecord ℝ :=
  { n := n
    pow2 := (extract23Powers n).pow2
    pow3 := (extract23Powers n).pow3
    remainder := (extract23Powers n).remainder
    logRn := (extract23Powers n).pow2 * LOG2 + (extract23Powers n).pow3 * LOG3
              - Real.log n - Real.log (Real.log n)
    ratio := Real.exp ((extract23Powers n).pow2 * LOG2 + (extract23Powers n).pow3 * LOG3
              - Real.log n - Real.log (Real.log n)) }

@[simp] lemma computeLogRatio_n (n : ℕ) : (computeLogRatio n).n = n := rfl

/-- The result object of `computeRatioBigInt` (`src/unnamed/part_001`
lines 23–44). -/
structure BigIntRatioRecord where
  n : ℕ
  pow2 : ℕ
  pow3 : ℕ
  remainder : ℕ
  smoothPartLog : ℝ
  ratio : ℝ
  logRatio : ℝ

/-- Function `computeRatioBigInt` (`src/unnamed/part_001` lines 23–44): factors the
product exactly, but then forms the smooth part `2^pow2 · 3^pow3` as a
number, divides it by `n · log n` directly (`ratio`), and sets
`logRatio = Math.log10(ratio)` — a base-10 logarithm of a directly formed
quotient, not the natural-log-space formula. -/
noncomputable def computeRatioBigInt (n : ℕ) : BigIntRatioRecord :=
  { n := n
    pow2 := (extract23PowersBigInt (n * (n + 1))).pow2
    pow3 := (extract23PowersBigInt (n * (n + 1))).pow3
    remainder := (extract23PowersBigInt (n * (n + 1))).remainder
    smoothPartLog := (extract23PowersBigInt (n * (n + 1))).pow2 * Real.log 2
                      + (extract23PowersBigInt (n * (n + 1))).pow3 * Real.log 3
    ratio := ((2 ^ (extract23PowersBigInt (n * (n + 1))).pow2 *
                3 ^ (extract23PowersBigInt (n * (n + 1))).pow3 : ℕ) : ℝ)
              / ((n : ℝ) * Real.log n)
    logRatio := Real.logb 10
      (((2 ^ (extract23PowersBigInt (n * (n + 1))).pow2 *
          3 ^ (extract23PowersBigInt (n * (n + 1))).pow3 : ℕ) : ℝ)
        / ((n : ℝ) * Real.log n)) }

/-- C2 counterexample: at `n = 3` the `computeRatioBigInt` evaluator of
`src/unnamed/part_001` does not satisfy
`logRatio = pow2·ln 2 + pow3·ln 3 − ln n − ln(ln n)`: its `logRatio` is the
base-10 logarithm `log₁₀(12 / (3·ln 3))`, which differs from the natural-log
value because `12 / (3·ln 3) ≠ 1` and `ln 10 ≠ 1`. -/
theorem C2_counterexample_computeRatioBigInt :
    ¬ ((computeRatioBigInt 3).logRatio
        = ((computeRatioBigInt 3).pow2 : ℝ) * Real.log 2
          + ((computeRatioBigInt 3).pow3 : ℝ) * Real.log 3
          - Real.log 3 - Real.log (Real.log 3)) := by
  intro h1
  have hx : extract23PowersBigInt (3 * (3 + 1)) = ⟨2, 1, 1⟩ := by decide
  simp only [computeRatioBigInt, hx] at h1
  norm_num at h1
  -- h1 : Real.logb 10 (12 / (3 * Real.log 3)) = 2 * Real.log 2 - Real.log (Real.log 3)
  -- (possibly with `+ Real.log 3 - Real.log 3` not yet cancelled; normalise below)
  have hL3pos : 0 < Real.log 3 := Real.log_pos (by norm_num)
  have hL3ne : Real.log 3 ≠ 0 := ne_of_gt hL3pos
  have hL3lt : Real.log 3 < 2 := by
    rw [Real.log_lt_iff_lt_exp (by norm_num)]
    have he : (2.7182818283 : ℝ) < Real.exp 1 := Real.exp_one_gt_d9
    have h2 : Real.exp 2 = Real.exp 1 * Real.exp 1 := by
      rw [← Real.exp_add]; norm_num
    nlinarith
  have hxval : (12 : ℝ) / (3 * Real.log 3) = 4 / Real.log 3 := by
    rw [div_eq_div_iff (by positivity) hL3ne]
    ring
  have hx1 : (1 : ℝ) < 4 / Real.log 3 := by
    rw [lt_div_iff hL3pos]
    linarith
  have hlogx : 0 < Real.log (4 / Real.log 3) := Real.log_pos hx1
  have h10 : 1 < Real.log 10 := by
    rw [Real.lt_log_iff_exp_lt (by norm_num)]
    have := Real.exp_one_lt_d9
    linarith
  have hlog4 : Real.log (4 / Real.log 3) = 2 * Real.log 2 - Real.log (Real.log 3) := by
    rw [Real.log_div (by norm_num) hL3ne, show (4 : ℝ) = 2 ^ 2 by norm_num, Real.log_pow]
    push_cast
    ring
  rw [hxval, Real.logb, hlog4] at h1
  have h1' : Real.log (4 / Real.log 3) / Real.log 10 = Real.log (4 / Real.log 3) := by
    rw [hlog4]; linarith [h1]
  have : Real.log (4 / Real.log 3) = Real.log (4 / Real.log 3) * Real.log 10 := by
    field_simp at h1'
    linarith [h1']
  have h10eq : Real.log 10 = 1 := by
    have hne : Real.log (4 / Real.log 3) ≠ 0 := ne_of_gt hlogx
    have := mul_left_cancel₀ hne (by linarith [this] : Real.log (4 / Real.log 3) * Real.log 10
      = Real.log (4 / Real.log 3) * 1)
    linarith
  linarith

/-- C2 (amended): `computeLogRatio` of `src/index.js` does satisfy the claim
for every `n ≥ 3` — `logRn` is exactly
`pow2·ln 2 + pow3·ln 3 − ln n − ln(ln n)` and `ratio = exp(logRn)` —
whereas `computeRatioBigInt` of `src/unnamed/part_001` forms the quotient
directly and takes its base-10 logarithm, so its `logRatio` equals the
log-space value divided by `ln 10`. -/
theorem C2_logRatio_amended (n : ℕ) (h : 3 ≤ n) :
    ((computeLogRatio n).logRn
        = ((extract23Powers n).pow2 : ℝ) * Real.log 2
          + ((extract23Powers n).pow3 : ℝ) * Real.log 3
          - Real.log n - Real.log (Real.log n)
      ∧ (computeLogRatio n).ratio = Real.exp ((computeLogRatio n).logRn))
    ∧ (computeRatioBigInt n).logRatio
        = (((extract23Powers n).pow2 : ℝ) * Real.log 2
            + ((extract23Powers n).pow3 : ℝ) * Real.log 3
            - Real.log n - Real.log (Real.log n)) / Real.log 10 := by
  have hn0 : (0 : ℝ) < (n : ℝ) := by
    have : 0 < n := by omega
    exact_mod_cast this
  have hn1 : (1 : ℝ) < (n : ℝ) := by
    have : 1 < n := by omega
    exact_mod_cast this
  have hlogn : 0 < Real.log n := Real.log_pos hn1
  refine ⟨⟨rfl, rfl⟩, ?_⟩
  show Real.logb 10
      (((2 ^ (extract23PowersBigInt (n * (n + 1))).pow2 *
          3 ^ (extract23PowersBigInt (n * (n + 1))).pow3 : ℕ) : ℝ)
        / ((n : ℝ) * Real.log n)) = _
  have hagree : extract23PowersBigInt (n * (n + 1)) = extract23Powers n := rfl
  rw [hagree]
  have hcast : ((2 ^ (extract23Powers n).pow2 * 3 ^ (extract23Powers n).pow3 : ℕ) : ℝ)
      = (2 : ℝ) ^ (extract23Powers n).pow2 * (3 : ℝ) ^ (extract23Powers n).pow3 := by
    push_cast
    ring
  rw [hcast, Real.logb,
    Real.log_div (by positivity) (ne_of_gt (mul_pos hn0 hlogn)),
    Real.log_mul (by positivity) (by positivity),
    Real.log_mul (ne_of_gt hn0) (ne_of_gt hlogn),
    Real.log_pow, Real.log_pow]
  ring

/-- Witness for `C2_logRatio_amended` at `n = 3`. -/
theorem C2_logRatio_amended_witness :
    3 ≤ 3 ∧
    (((computeLogRatio 3).logRn
        = ((extract23Powers 3).pow2 : ℝ) * Real.log 2
          + ((extract23Powers 3).pow3 : ℝ) * Real.log 3
          - Real.log 3 - Real.log (Real.log 3)
      ∧ (computeLogRatio 3).ratio = Real.exp ((computeLogRatio 3).logRn))
    ∧ (computeRatioBigInt 3).logRatio
        = (((extract23Powers 3).pow2 : ℝ) * Real.log 2
            + ((extract23Powers 3).pow3 : ℝ) * Real.log 3
            - Real.log 3 - Real.log (Real.log 3)) / Real.log 10) := by
  have h := C2_logRatio_amended 3 (by decide)
  have hc : ((3 : ℕ) : ℝ) = (3 : ℝ) := by norm_num
  rw [hc] at h
  exact ⟨by decide, h⟩

/-! ### The streaming search controller (`computeData`, `src/index.js` lines 149–263)

The run is single-threaded: the abort flag (`abortRef`, set by `handleStop`,
lines 265–268) can only flip while `computeData` is suspended at the
`await` before a full batch is processed (line 186).  The batch being
processed when the flag flips still completes (the inner loop at lines
188–211 performs no abort check), the next candidate pull then breaks out
(line 181), and the tail loop (lines 218–232) checks the flag per candidate,
so it contributes nothing.  Publication (lines 234–260: `setAllData`,
`setSpikes`, `setStats`, `setProgress(100)`) happens only when the flag was
never set.  `abortB = some b` below means the flag was first observed set at
the `await` preceding batch `b` (0-indexed); `abortB = none` means it was
never set during the run. -/

/-- Models the guard `isFinite(result.logRn)` (`src/index.js` line 192) on
the double computed by `computeLogRatio`.  For a candidate `n ≥ 2` every
term of `logRn` is a finite double (`Math.log(n) ≥ ln 2 > 0`, so
`Math.log(Math.log(n))` is finite, and the exponent-weighted sums of `ln 2`
and `ln 3` stay far below overflow), so the guard passes; for `n = 1` the
term `Math.log(Math.log(1)) = Math.log(0) = -Infinity` makes `logRn`
infinite and for `n = 0` it is `NaN`, so the guard fails.  On the integers
this program can feed it, the guard is therefore exactly `2 ≤ n`. -/
def logRnIsFinite (n : ℕ) : Bool := 2 ≤ n

/-- Constant `const batchSize = 500` (`src/index.js` line 176). -/
def batchSize : ℕ := 500

/-- The progress percentage pushed at line 205:
`Math.min(99, Math.floor(100 * processed / Math.max(totalEstimate, processed)))`. -/
def progressUpdate (processed totalEstimate : ℕ) : ℕ :=
  min 99 (100 * processed / max totalEstimate processed)

/-- One step of spike tracking (`src/index.js` lines 196–199 and 224–227):
`if (autoTrackSpikes && result.logRn > maxLogRn) { maxLogRn = result.logRn;
spikeResults.push(result); }`.  The state is `(maxLogRn, spikeResults)`;
`maxLogRn` starts at `-Infinity`, embedded as `⊥ : WithBot R`. -/
def spikeStep {R : Type} [LinearOrder R] (autoTrack : Bool)
    (st : WithBot R × List (RatioRecord R)) (r : RatioRecord R) :
    WithBot R × List (RatioRecord R) :=
  if autoTrack = true ∧ st.1 < (r.logRn : WithBot R) then
    ((r.logRn : WithBot R), st.2 ++ [r])
  else st

/-- The spike-tracking reduction over the finite results in discovery
order. -/
def spikeFold {R : Type} [LinearOrder R] (autoTrack : Bool)
    (results : List (RatioRecord R)) : WithBot R × List (RatioRecord R) :=
  results.foldl (spikeStep autoTrack) (⊥, [])

/-- Exactly `cands.length / batchSize` full batches reach the inner processing loop
of the main `for` loop; the remaining `cands.length % batchSize` candidates
are handled by the tail loop (lines 218–232). -/
def fullBatchCount (cands : List ℕ) : ℕ := cands.length / batchSize

/-- Whether a run with abort point `abortB` is actually cancelled: the flag
can only be observed at one of the `fullBatchCount` awaits. -/
def runCancelled (cands : List ℕ) (abortB : Option ℕ) : Bool :=
  match abortB with
  | none => false
  | some b => b < fullBatchCount cands

/-- The candidates whose `computeLogRatio` results reach the `results` array:
everything, when the flag is never set; batches `0..b` (the in-flight batch
completes, the tail is skipped) when the flag is observed at await `b`. -/
def consumedCandidates (cands : List ℕ) (abortB : Option ℕ) : List ℕ :=
  match abortB with
  | none => cands
  | some b => if b < fullBatchCount cands then cands.take ((b + 1) * batchSize) else cands

/-- The candidates processed inside the main loop's full batches — only
these increment `processed` and can emit progress events (the tail loop at
lines 218–232 does neither). -/
def mainLoopCandidates (cands : List ℕ) (abortB : Option ℕ) : List ℕ :=
  match abortB with
  | none => cands.take (fullBatchCount cands * batchSize)
  | some b =>
      if b < fullBatchCount cands then cands.take ((b + 1) * batchSize)
      else cands.take (fullBatchCount cands * batchSize)

/-- Observable outcome of one `computeData` run. -/
structure RunOutcome where
  internalResults : List (RatioRecord ℝ)
  runningMax : WithBot ℝ
  spikeResults : List (RatioRecord ℝ)
  publishedData : Option (List (RatioRecord ℝ))
  midProgress : List ℕ
  finalProgress : Option ℕ
  cancelled : Bool

/-- The `computeData` run (`src/index.js` lines 149–263) on an explicit
candidate list: each consumed candidate is evaluated by `computeLogRatio`,
kept iff `isFinite(logRn)`, and fed to spike tracking; `totalEstimate` is
the estimation pass capped at 50001 candidates (lines 167–173); progress is
emitted at every 100th finite main-loop result (lines 203–206); sorted
results, spikes and `setProgress(100)` are published only if the flag was
never set (lines 234–260). -/
noncomputable def computeDataRun (cands : List ℕ) (autoTrack : Bool)
    (abortB : Option ℕ) : RunOutcome :=
  { internalResults :=
      ((consumedCandidates cands abortB).filter (fun n => logRnIsFinite n)).map computeLogRatio
    runningMax :=
      (spikeFold autoTrack
        (((consumedCandidates cands abortB).filter (fun n => logRnIsFinite n)).map
          computeLogRatio)).1
    spikeResults :=
      (spikeFold autoTrack
        (((consumedCandidates cands abortB).filter (fun n => logRnIsFinite n)).map
          computeLogRatio)).2
    publishedData :=
      if runCancelled cands abortB then none
      else some
        ((((consumedCandidates cands abortB).filter (fun n => logRnIsFinite n)).map
            computeLogRatio).insertionSort (fun a b => a.n ≤ b.n))
    midProgress :=
      (List.range
          (((mainLoopCandidates cands abortB).filter (fun n => logRnIsFinite n)).length / 100)).map
        (fun i => progressUpdate ((i + 1) * 100) (min cands.length 50001))
    finalProgress := if runCancelled cands abortB then none else some 100
    cancelled := runCancelled cands abortB }

/-! ### Spike-tracking invariants -/

/-- Invariant of the spike-tracking state: spike values strictly increase,
all are bounded by the running maximum, and the last one (if any) equals
it. -/
def spikeInv {R : Type} [LinearOrder R] (st : WithBot R × List (RatioRecord R)) : Prop :=
  (st.2.map (fun r => r.logRn)).Sorted (· < ·)
  ∧ (∀ r ∈ st.2, (r.logRn : WithBot R) ≤ st.1)
  ∧ (st.2 ≠ [] → st.2.getLast?.map (fun r => (r.logRn : WithBot R)) = some st.1)

lemma spikeStep_inv {R : Type} [LinearOrder R] (auto : Bool)
    {st : WithBot R × List (RatioRecord R)} (r : RatioRecord R)
    (h : spikeInv st) : spikeInv (spikeStep auto st r) := by
  unfold spikeStep
  split
  · rename_i hc
    obtain ⟨hs, hb, -⟩ := h
    refine ⟨?_, ?_, ?_⟩
    · rw [List.map_append]
      refine List.pairwise_append.2 ⟨hs, List.sorted_singleton _, ?_⟩
      intro x hx y hy
      simp only [List.map_singleton, List.mem_singleton] at hy
      subst hy
      obtain ⟨s, hsmem, hsx⟩ := List.mem_map.1 hx
      subst hsx
      have h1 : (s.logRn : WithBot R) ≤ st.1 := hb s hsmem
      have h2 : (s.logRn : WithBot R) < (r.logRn : WithBot R) := lt_of_le_of_lt h1 hc.2
      exact_mod_cast h2
    · intro x hx
      rcases List.mem_append.1 hx with h' | h'
      · exact le_of_lt (lt_of_le_of_lt (hb x h') hc.2)
      · simp only [List.mem_singleton] at h'
        subst h'
        exact le_rfl
    · intro _
      simp [List.getLast?_concat]
  · exact h

lemma foldl_spikeStep_inv {R : Type} [LinearOrder R] (auto : Bool) :
    ∀ (l : List (RatioRecord R)) (st), spikeInv st →
      spikeInv (l.foldl (spikeStep auto) st) := by
  intro l
  induction l with
  | nil => intro st h; exact h
  | cons r l ih => intro st h; exact ih _ (spikeStep_inv auto r h)

lemma spikeFold_inv {R : Type} [LinearOrder R] (auto : Bool)
    (l : List (RatioRecord R)) : spikeInv (spikeFold auto l) := by
  apply foldl_spikeStep_inv
  refine ⟨List.sorted_nil, ?_, ?_⟩
  · intro r hr; cases hr
  · intro h; cases h rfl

lemma spikeStep_ne_nil {R : Type} [LinearOrder R] (auto : Bool)
    {st : WithBot R × List (RatioRecord R)} (r : RatioRecord R)
    (h : st.2 ≠ []) : (spikeStep auto st r).2 ≠ [] := by
  unfold spikeStep
  split
  · simp
  · exact h

lemma foldl_spikeStep_ne_nil {R : Type} [LinearOrder R] (auto : Bool) :
    ∀ (l : List (RatioRecord R)) (st), st.2 ≠ [] →
      (l.foldl (spikeStep auto) st).2 ≠ [] := by
  intro l
  induction l with
  | nil => intro st h; exact h
  | cons r l ih => intro st h; exact ih _ (spikeStep_ne_nil auto r h)

lemma spikeFold_ne_nil {R : Type} [LinearOrder R]
    {l : List (RatioRecord R)} (hl : l ≠ []) : (spikeFold true l).2 ≠ [] := by
  obtain ⟨r, l', rfl⟩ := List.exists_cons_of_ne_nil hl
  show (List.foldl (spikeStep true) (spikeStep true (⊥, []) r) l').2 ≠ []
  apply foldl_spikeStep_ne_nil
  show (spikeStep true (⊥, []) r).2 ≠ []
  unfold spikeStep
  rw [if_pos ⟨rfl, WithBot.bot_lt_coe _⟩]
  simp

/-- C4: during a run (in spike-tracking mode), `spikeHistory` is strictly
increasing in `logRatio` in discovery order, and — whenever the run produced
at least one result — the last spike's `logRatio` equals `runningMax` at
completion. -/
theorem C4_spikeHistory_strictMono_last_eq_max (cands : List ℕ) (ab : Option ℕ)
    (h : (computeDataRun cands true ab).internalResults ≠ []) :
    ((computeDataRun cands true ab).spikeResults.map (fun r => r.logRn)).Sorted (· < ·)
    ∧ (computeDataRun cands true ab).spikeResults.getLast?.map
        (fun r => (r.logRn : WithBot ℝ)) = some (computeDataRun cands true ab).runningMax := by
  have hinv := spikeFold_inv (R := ℝ) true
    (((consumedCandidates cands ab).filter (fun n => logRnIsFinite n)).map computeLogRatio)
  have hne : (spikeFold true
      (((consumedCandidates cands ab).filter (fun n => logRnIsFinite n)).map
        computeLogRatio)).2 ≠ [] :=
    spikeFold_ne_nil h
  exact ⟨hinv.1, hinv.2.2 hne⟩

/-- Witness for `C4_spikeHistory_strictMono_last_eq_max` on the one-candidate
run `[3]`. -/
theorem C4_spikeHistory_strictMono_last_eq_max_witness :
    (computeDataRun [3] true none).internalResults ≠ [] ∧
    (((computeDataRun [3] true none).spikeResults.map (fun r => r.logRn)).Sorted (· < ·)
    ∧ (computeDataRun [3] true none).spikeResults.getLast?.map
        (fun r => (r.logRn : WithBot ℝ)) = some (computeDataRun [3] true none).runningMax) := by
  have hne : (computeDataRun [3] true none).internalResults ≠ [] := by
    show (([3].filter (fun n => logRnIsFinite n)).map computeLogRatio) ≠ []
    simp [logRnIsFinite]
  exact ⟨hne, C4_spikeHistory_strictMono_last_eq_max [3] none hne⟩

/-- C5 counterexample: cancel a 500-candidate run at its (only) batch
boundary.  Every one of the 500 candidates was fully evaluated before the
signal was observed (`internalResults ≠ []`), yet the run publishes nothing:
`publishedData = none`, not the accumulated partial results — the source's
publication block (`src/index.js` lines 234–260) is guarded by
`if (!abortRef.current)`, so a cancelled run never surfaces its results. -/
theorem C5_counterexample_cancel_publishes_nothing :
    (computeDataRun (List.range' 3 500) true (some 0)).publishedData
        ≠ some ((computeDataRun (List.range' 3 500) true (some 0)).internalResults)
    ∧ (computeDataRun (List.range' 3 500) true (some 0)).internalResults ≠ [] := by
  have hfb : fullBatchCount (List.range' 3 500) = 1 := by
    unfold fullBatchCount batchSize
    simp [List.length_range']
  have hc : runCancelled (List.range' 3 500) (some 0) = true := by
    unfold runCancelled
    rw [hfb]
    decide
  have hcons : consumedCandidates (List.range' 3 500) (some 0) = List.range' 3 500 := by
    simp only [consumedCandidates]
    rw [if_pos (by rw [hfb]; decide)]
    apply List.take_of_length_le
    simp [List.length_range', batchSize]
  constructor
  · have hpub : (computeDataRun (List.range' 3 500) true (some 0)).publishedData = none := by
      simp only [computeDataRun, hc]
      simp
    rw [hpub]
    simp
  · have hint : (computeDataRun (List.range' 3 500) true (some 0)).internalResults
        = ((List.range' 3 500).filter (fun n => logRnIsFinite n)).map computeLogRatio := by
      simp only [computeDataRun]
      rw [hcons]
    rw [hint]
    intro hnil
    have h3 : (3 : ℕ) ∈ (List.range' 3 500).filter (fun n => logRnIsFinite n) := by
      refine List.mem_filter.2 ⟨?_, by decide⟩
      refine List.mem_range'_1.2 ⟨le_rfl, by omega⟩
    rw [List.map_eq_nil] at hnil
    rw [hnil] at h3
    cases h3

/-- C5 (amended): a cancellation observed at a batch boundary leaves every
result computed before the signal in the internal accumulator — it is
exactly a prefix of what the uncancelled run would accumulate, with no
rollback — and the run terminates in the cancelled state; however the
partial results are NOT returned to the caller: publication is skipped
entirely and the exposed result state stays empty (`publishedData = none`). -/
theorem C5_cancel_no_rollback_publishes_none (cands : List ℕ) (auto : Bool) (b : ℕ)
    (h : b < fullBatchCount cands) :
    (computeDataRun cands auto (some b)).cancelled = true
    ∧ (computeDataRun cands auto (some b)).internalResults
        <+: (computeDataRun cands auto none).internalResults
    ∧ (computeDataRun cands auto (some b)).publishedData = none := by
  have hc : runCancelled cands (some b) = true := by
    unfold runCancelled
    simpa using h
  refine ⟨hc, ?_, ?_⟩
  · show ((consumedCandidates cands (some b)).filter (fun n => logRnIsFinite n)).map
        computeLogRatio
      <+: ((consumedCandidates cands none).filter (fun n => logRnIsFinite n)).map
        computeLogRatio
    have hcons : consumedCandidates cands (some b) = cands.take ((b + 1) * batchSize) := by
      simp only [consumedCandidates]
      rw [if_pos h]
    rw [hcons]
    show _ <+: (cands.filter (fun n => logRnIsFinite n)).map computeLogRatio
    refine ⟨((cands.drop ((b + 1) * batchSize)).filter (fun n => logRnIsFinite n)).map
      computeLogRatio, ?_⟩
    rw [← List.map_append, ← List.filter_append, List.take_append_drop]
  · show (if runCancelled cands (some b) then none else _) = none
    rw [hc]
    simp

/-- Witness for `C5_cancel_no_rollback_publishes_none` on a 500-candidate
run cancelled at batch 0. -/
theorem C5_cancel_no_rollback_publishes_none_witness :
    0 < fullBatchCount (List.range' 3 500) ∧
    ((computeDataRun (List.range' 3 500) true (some 0)).cancelled = true
    ∧ (computeDataRun (List.range' 3 500) true (some 0)).internalResults
        <+: (computeDataRun (List.range' 3 500) true none).internalResults
    ∧ (computeDataRun (List.range' 3 500) true (some 0)).publishedData = none) := by
  have hfb : 0 < fullBatchCount (List.range' 3 500) := by
    unfold fullBatchCount batchSize
    simp [List.length_range']
  exact ⟨hfb, C5_cancel_no_rollback_publishes_none (List.range' 3 500) true 0 hfb⟩

/-! ### Start-request validation

The parsed `maxN` input is modelled as `Option ℤ`: `none` is JavaScript's
`NaN` (missing or unparseable input), `some v` the parsed integer. -/

/-- The guard at the top of `computeData` (`src/index.js` lines 150–151):
`const maxN = parseInt(...); if (!maxN || maxN < 2) return;`.  The run
starts iff the value is present, non-zero (`!maxN` is true for `NaN` and
`0`) and at least 2.  There is no upper bound check. -/
def computeDataAccepts (input : Option ℤ) : Bool :=
  match input with
  | none => false
  | some v => if v = 0 ∨ v < 2 then false else true

/-- The guard of `handleSetMaxN` (`src/unnamed/part_001` lines 176–181):
`if (val > 0 && val <= 1e15) setMaxN(val);` — `NaN` comparisons are false,
so a missing value is rejected too. -/
def handleSetMaxNAccepts (input : Option ℤ) : Bool :=
  match input with
  | none => false
  | some v => if 0 < v ∧ v ≤ 10 ^ 15 then true else false

/-- C6 counterexample: `src/index.js` imposes no `10^15` ceiling — the
start request `maxN = 10^15 + 1` passes `computeData`'s guard and a run
starts, contradicting the claim that values exceeding the supported
ceiling are rejected. -/
theorem C6_counterexample_no_ceiling :
    computeDataAccepts (some 1000000000000001) = true
    ∧ (10 : ℤ) ^ 15 < 1000000000000001 :=
  ⟨by decide, by norm_num⟩

/-- C6 (amended): `part_001`'s `handleSetMaxN` accepts exactly the present,
positive values `≤ 10^15` (so missing, non-positive and over-ceiling inputs
are all rejected there, the state update being skipped), while `index.js`'s
`computeData` accepts exactly the present values `≥ 2` — it rejects missing
and non-positive `maxN` before any state change, but has no `10^15`
ceiling. -/
theorem C6_validation_amended (input : Option ℤ) :
    (handleSetMaxNAccepts input = true ↔ ∃ v, input = some v ∧ 0 < v ∧ v ≤ 10 ^ 15)
    ∧ (computeDataAccepts input = true ↔ ∃ v, input = some v ∧ 2 ≤ v) := by
  cases input with
  | none => simp [handleSetMaxNAccepts, computeDataAccepts]
  | some v =>
    constructor
    · by_cases hc : 0 < v ∧ v ≤ 10 ^ 15
      · simp [handleSetMaxNAccepts, hc]
      · simp only [handleSetMaxNAccepts, if_neg hc]
        simp only [Bool.false_eq_true, false_iff]
        rintro ⟨v', hv', hrest⟩
        rw [Option.some_inj] at hv'
        subst hv'
        exact hc hrest
    · by_cases hc : v = 0 ∨ v < 2
      · simp only [computeDataAccepts, if_pos hc]
        simp only [Bool.false_eq_true, false_iff]
        rintro ⟨v', hv', hrest⟩
        rw [Option.some_inj] at hv'
        subst hv'
        omega
      · simp only [computeDataAccepts, if_neg hc]
        simp only [true_iff]
        exact ⟨v, rfl, by omega⟩

/-- C7 counterexample: with `maxN = 10`, `density = low`, the candidate
`n = 2` (generated by the sparse linear sample, `src/index.js` line 121) is
below 3, yet the completed run's accumulated results contain a ResultRecord
with `n = 2`: `computeLogRatio(2)` has the finite value
`ln 3 − ln(ln 2)`, so the `isFinite` guard does not skip it. -/
theorem C7_counterexample_two_not_skipped :
    2 ∈ (computeDataRun (generateCandidates 10 Density.low) true none).internalResults.map
        (fun r => r.n)
    ∧ 2 < 3 := by
  refine ⟨?_, by decide⟩
  have hint : (computeDataRun (generateCandidates 10 Density.low) true none).internalResults
      = ((generateCandidates 10 Density.low).filter (fun n => logRnIsFinite n)).map
          computeLogRatio := by
    simp only [computeDataRun, consumedCandidates]
  rw [hint, List.map_map]
  have hcomp : ((fun r : RatioRecord ℝ => r.n) ∘ computeLogRatio) = (fun n : ℕ => n) := by
    funext m
    rfl
  rw [hcomp]
  have hid : ∀ l : List ℕ, l.map (fun n : ℕ => n) = l := fun l => List.map_id' l
  rw [hid]
  decide

/-- C7 (amended): no candidate below 2 is ever generated, and during a
completed run no candidate is skipped at all: every candidate — including
`n = 2`, the only possible candidate below 3, which is always present when
`maxN ≥ 2` — produces exactly one ResultRecord, and nothing is surfaced as
a run failure. -/
theorem C7_no_skip_amended (maxN : ℕ) (d : Density) (auto : Bool) (h : 2 ≤ maxN) :
    (computeDataRun (generateCandidates maxN d) auto none).internalResults.map
        (fun r => r.n) = generateCandidates maxN d
    ∧ 2 ∈ generateCandidates maxN d := by
  refine ⟨?_, two_mem_generateCandidates d h⟩
  have hint : (computeDataRun (generateCandidates maxN d) auto none).internalResults
      = ((generateCandidates maxN d).filter (fun n => logRnIsFinite n)).map
          computeLogRatio := by
    simp only [computeDataRun, consumedCandidates]
  rw [hint, List.map_map]
  have hcomp : ((fun r : RatioRecord ℝ => r.n) ∘ computeLogRatio) = (fun n : ℕ => n) := by
    funext m
    rfl
  rw [hcomp]
  have hid : ∀ l : List ℕ, l.map (fun n : ℕ => n) = l := fun l => List.map_id' l
  rw [hid]
  apply List.filter_eq_self.2
  intro a ha
  exact decide_eq_true (generateCandidates_bound ha).1

/-- Witness for `C7_no_skip_amended` at `maxN = 10`, `density = low`. -/
theorem C7_no_skip_amended_witness :
    2 ≤ 10 ∧
    ((computeDataRun (generateCandidates 10 Density.low) false none).internalResults.map
        (fun r => r.n) = generateCandidates 10 Density.low
    ∧ 2 ∈ generateCandidates 10 Density.low) :=
  ⟨by decide, C7_no_skip_amended 10 Density.low false (by decide)⟩

/-- C9: every progress percentage emitted while the run is in progress is
clamped to at most 99 (and, being a natural number, at least 0); the value
100 is reported exactly when the run completes (a cancelled run never
reports 100). -/
theorem C9_progress_clamped (cands : List ℕ) (auto : Bool) (ab : Option ℕ) :
    (computeDataRun cands auto ab).midProgress.all (fun v => v ≤ 99) = true
    ∧ (computeDataRun cands auto ab).finalProgress
        = (if (computeDataRun cands auto ab).cancelled then none else some 100) := by
  constructor
  · rw [List.all_eq_true]
    intro v hv
    have hv' : v ∈ (List.range
        (((mainLoopCandidates cands ab).filter (fun n => logRnIsFinite n)).length / 100)).map
        (fun i => progressUpdate ((i + 1) * 100) (min cands.length 50001)) := hv
    obtain ⟨i, -, hi⟩ := List.mem_map.1 hv'
    apply decide_eq_true
    rw [← hi]
    exact min_le_left _ _
  · rfl

end SmoothRatio
